import Mathlib

/-!
Shallow embedding of the pihole-operator core: the canonical DNS record
model (`internal/pihole/dns_record.go`), the backend client's wire
encodings and parsers and its session handling
(`internal/pihole/client.go`), and the reconciliation controller
(`internal/controller/dnsname_controller.go`), together with theorems
about them.

Conventions of the embedding:
* Go strings are Lean `String`s; `strings.Split` with the single-character
  separators used by the code is `goSplit`.
* A Go `*int32` is modelled as `Option Ptr32`, where a `Ptr32` records the
  allocation address together with the stored value; Go's `==`/`!=` on two
  `*int32` values compares addresses only (two live distinct allocations
  always have distinct addresses).
* HTTP calls are modelled by their observable data: a response is a status
  code plus the decoded body (`none` for a body that fails to decode), and
  a reconcile pass is the list of mutating calls it issues, in order,
  under the assumption that every issued call succeeds (an error aborts
  the remainder of the pass, which no claim here quantifies over).
-/

/-- Go `strings.Split` with a one-character separator, acting on the
character list: splits on every occurrence of `sep`; never returns `[]`
(splitting the empty string yields `[[]]`, like Go's `[""]`). -/
def splitOnChar (sep : Char) : List Char → List (List Char)
  | [] => [[]]
  | c :: rest =>
    if c = sep then [] :: splitOnChar sep rest
    else (c :: (splitOnChar sep rest).headD []) :: (splitOnChar sep rest).tail

/-- Go `strings.Split(s, sep)` for the one-character separators `","` and
`" "` used by the client, returning Go strings. -/
def goSplit (sep : Char) (s : String) : List String :=
  (splitOnChar sep s.data).map String.mk

/-- Fuel-driven decimal rendering of a natural number, most significant
digit first (the digits Go's `fmt` verb `%d` emits for the magnitude). -/
def natDecAux : Nat → Nat → List Char → List Char
  | 0, _, acc => acc
  | fuel + 1, n, acc =>
    if n < 10 then Nat.digitChar (n % 10) :: acc
    else natDecAux fuel (n / 10) (Nat.digitChar (n % 10) :: acc)

/-- Decimal digit string of a natural number. -/
def natDecimalChars (n : Nat) : List Char := natDecAux (n + 1) n []

/-- Go `fmt.Sprintf("%d", n)` for an integer: minus sign for negatives,
then the decimal magnitude. -/
def goFormatInt (n : Int) : String :=
  if n < 0 then String.mk ('-' :: natDecimalChars n.natAbs)
  else String.mk (natDecimalChars n.toNat)

/-- Sign handling of Go `strconv.ParseInt`: an optional leading `-` or `+`
is stripped; returns (negative?, remaining characters). -/
def stripSign (cs : List Char) : Bool × List Char :=
  match cs with
  | [] => (false, [])
  | c :: rest =>
    if c = '-' then (true, rest)
    else if c = '+' then (false, rest)
    else (false, c :: rest)

/-- Reads a non-empty run of decimal digits; `none` when empty or when a
non-digit appears, as `strconv.ParseInt` errors there. -/
def decDigitsToNat? (cs : List Char) : Option Nat :=
  if cs = [] then none
  else if cs.all Char.isDigit then
    some (cs.foldl (fun a c => a * 10 + (c.toNat - 48)) 0)
  else none

/-- Go `strconv.ParseInt(s, 10, 32)`: optional sign, decimal digits, and a
range check against the signed 32-bit interval; `none` models the error
return. -/
def goParseInt32 (s : String) : Option Int :=
  let (neg, ds) := stripSign s.data
  match decDigitsToNat? ds with
  | none => none
  | some m =>
    let v : Int := if neg then -(m : Int) else (m : Int)
    if v < -(2 ^ 31) ∨ 2 ^ 31 ≤ v then none else some v

/-- A Go `*int32`: the allocation address and the value stored there.
Go's `!=` on two such pointers compares the addresses only. -/
structure Ptr32 where
  addr : Nat
  val : Int
deriving DecidableEq, Repr

/-- `v1alpha1.DNSRecordType` is a Go string type. -/
abbrev DNSRecordType := String

/-- `v1alpha1.CName`. -/
def v1alpha1.CName : DNSRecordType := "CNAME"

/-- `v1alpha1.A`. -/
def v1alpha1.A : DNSRecordType := "A"

/-- `DNSRecord` from `internal/pihole/dns_record.go`: domain, target,
record type and the optional TTL pointer. -/
structure DNSRecord where
  Domain : String
  Target : String
  Type' : DNSRecordType
  TTL : Option Ptr32
deriving DecidableEq, Repr

/-- Go `r.TTL != other.TTL` on two `*int32` fields: both `nil` compare
equal; two non-`nil` pointers compare by address. -/
def ptrNe : Option Ptr32 → Option Ptr32 → Bool
  | none, none => false
  | some p, some q => p.addr != q.addr
  | _, _ => true

/-- `DNSRecord.Equals` from `internal/pihole/dns_record.go`: early-return
field comparisons; the TTL fields are `*int32` and are compared with
`!=`, i.e. by pointer. -/
def DNSRecord.Equals (r other : DNSRecord) : Bool :=
  if r.Domain != other.Domain then false
  else if r.Target != other.Target then false
  else if r.Type' != other.Type' then false
  else if ptrNe r.TTL other.TTL then false
  else true

/-- TTL equality as §3 of the spec states it: compared by presence and
numeric value (absent is not equal to present 0). Written from the spec's
words, for comparison against the code's `DNSRecord.Equals`. -/
def specTTLEq : Option Ptr32 → Option Ptr32 → Bool
  | none, none => true
  | some p, some q => p.val == q.val
  | _, _ => false

/-- Record equality as §3 of the spec states it: all four fields match,
TTL by presence and value. Written from the spec's words. -/
def specEquals (a b : DNSRecord) : Bool :=
  a.Domain == b.Domain && a.Target == b.Target && a.Type' == b.Type' &&
    specTTLEq a.TTL b.TTL

/-- `v1alpha1.DNSNameSpec`: declared type, domain, optional CNAME target,
optional A-record address, optional TTL. -/
structure DNSNameSpec where
  Type' : DNSRecordType
  Domain : String
  Target : Option String
  TargetIP : Option String
  TTL : Option Ptr32
deriving DecidableEq, Repr

/-- `NewDNSRecordFromSpec` from `internal/pihole/dns_record.go`: for type
A the address is required, for type CNAME the target is required, any
other type is invalid; on success the record carries `spec.TTL`
unchanged. -/
def NewDNSRecordFromSpec (spec : DNSNameSpec) : Except String DNSRecord :=
  if spec.Type' = v1alpha1.A then
    match spec.TargetIP with
    | none => .error "targetIP is required for A records"
    | some ip => .ok ⟨spec.Domain, ip, spec.Type', spec.TTL⟩
  else if spec.Type' = v1alpha1.CName then
    match spec.Target with
    | none => .error "target is required for CNAME records"
    | some t => .ok ⟨spec.Domain, t, spec.Type', spec.TTL⟩
  else .error "invalid DNS record type"

/-- Outcome of parsing one backend line in `GetDNSRecords`: a record, the
`strconv` error return on a malformed TTL segment, or an
index-out-of-range panic on a missing segment. -/
inductive LineParse where
  | ok (r : DNSRecord)
  | ttlError
  | indexPanic
deriving DecidableEq, Repr

/-- One iteration of the parsing loop in `getARecords`: split on `" "`,
`Target` from segment 0 and `Domain` from segment 1, no TTL; with fewer
than two segments the access `parts[1]` is out of range. -/
def parseHostsLine (line : String) : LineParse :=
  match goSplit ' ' line with
  | t :: d :: _ => .ok ⟨d, t, v1alpha1.A, none⟩
  | _ => .indexPanic

/-- One iteration of the parsing loop in `getCNames`: split on `","`;
with exactly three segments the third is parsed as the TTL into a fresh
`int32` allocation at address `fresh`; otherwise no TTL; `Domain` from
segment 0 and `Target` from segment 1, out of range with fewer than two
segments. -/
def parseCNameLine (fresh : Nat) (line : String) : LineParse :=
  match goSplit ',' line with
  | [d, t, s] =>
    match goParseInt32 s with
    | none => .ttlError
    | some v => .ok ⟨d, t, v1alpha1.CName, some ⟨fresh, v⟩⟩
  | d :: t :: _ => .ok ⟨d, t, v1alpha1.CName, none⟩
  | _ => .indexPanic

/-- The key `CreateDNSARecord` PUTs under `/config/dns/hosts/`:
`"<ip> <domain>"`. -/
def encodeARecordKey (ip domain : String) : String := ip ++ " " ++ domain

/-- The key `CreateDNSCNAMERecord` PUTs under `/config/dns/cnameRecords/`:
`"<domain>,<target>"`, with `",<ttl>"` appended when the TTL pointer is
non-nil. -/
def encodeCNameKey (domain target : String) (ttl : Option Ptr32) : String :=
  match ttl with
  | none => domain ++ "," ++ target
  | some p => domain ++ "," ++ target ++ "," ++ goFormatInt p.val

/-- The create-call key of a record, by kind (the A branch uses the
record's `Target` as the address, as `DeleteDNSRecord` also does). -/
def createKey (r : DNSRecord) : String :=
  if r.Type' = v1alpha1.A then encodeARecordKey r.Target r.Domain
  else encodeCNameKey r.Domain r.Target r.TTL

/-- Decoding a create-call key with the list parser of the same kind, the
fresh TTL allocation placed at address `fresh`. -/
def decodeKey (fresh : Nat) (r : DNSRecord) : LineParse :=
  if r.Type' = v1alpha1.A then parseHostsLine (createKey r)
  else parseCNameLine fresh (createKey r)

/-- The decoded body of the `/auth` response: session validity flag and
session id. -/
structure AuthSession where
  valid : Bool
  sid : String
deriving DecidableEq, Repr

/-- An HTTP response to the auth call as the client observes it: status
code and decoded JSON body (`none` when decoding fails). -/
structure AuthHTTPResponse where
  status : Nat
  body : Option AuthSession
deriving DecidableEq, Repr

/-- `authenticate` from `internal/pihole/client.go` as a function of the
stored `sid` and the observed response: non-200 status, decode failure
and `valid == false` each return an error with `sid` untouched; only a
fully successful response assigns `p.sid`. -/
def authenticate (sid : String) (resp : AuthHTTPResponse) : String × Bool :=
  if resp.status ≠ 200 then (sid, false)
  else
    match resp.body with
    | none => (sid, false)
    | some session =>
      if session.valid = false then (sid, false) else (session.sid, true)

/-- `doAuthenticatedRequest`: runs `authenticate` exactly when the stored
`sid` is empty. Returns (did authenticate run, resulting `sid`, success
of the authentication step). -/
def doAuthenticatedRequest (sid : String) (resp : AuthHTTPResponse) :
    Bool × String × Bool :=
  if sid = "" then
    let (sid2, ok) := authenticate sid resp
    (true, sid2, ok)
  else (false, sid, true)

/-- A mutating call a reconcile pass issues: the finalizer writes to the
resource and the create/delete calls to the backend. -/
inductive Call where
  | addFinalizer
  | removeFinalizer
  | create (r : DNSRecord)
  | delete (r : DNSRecord)
deriving DecidableEq, Repr

/-- The fields of a `DNSName` resource the controller branches on. -/
structure DNSName where
  deletionRequested : Bool
  hasFinalizer : Bool
  spec : DNSNameSpec
deriving DecidableEq, Repr

/-- The deletion loop of `cleanupDNSRecord`: delete every observed record
whose domain equals the declared domain, in list order. -/
def cleanupLoop (domain : String) : List DNSRecord → List Call
  | [] => []
  | r :: rest =>
    if r.Domain = domain then Call.delete r :: cleanupLoop domain rest
    else cleanupLoop domain rest

/-- `cleanupDNSRecord` from the controller: the deletion loop, then the
finalizer removal persisted via `Update`. -/
def cleanupDNSRecord (domain : String) (observed : List DNSRecord) :
    List Call :=
  cleanupLoop domain observed ++ [Call.removeFinalizer]

/-- The diff-and-converge loop of `Reconcile` (controller lines 121-143):
scan the observed records; on a domain match, an `Equals` match returns
early with no further calls, a differing record is deleted; when the scan
falls through, one create for the desired record. -/
def convergeCalls (desired : DNSRecord) : List DNSRecord → List Call
  | [] => [Call.create desired]
  | r :: rest =>
    if r.Domain = desired.Domain then
      if r.Equals desired then []
      else Call.delete r :: convergeCalls desired rest
    else convergeCalls desired rest

/-- One `Reconcile` pass as its sequence of mutating calls, with
`observed` the successful `GetDNSRecords` result: no deletion requested
adds the finalizer when absent, then builds the desired record (a
validation error ends the pass) and converges; a requested deletion with
the finalizer present runs cleanup and stops; without the finalizer the
pass stops immediately. -/
def Reconcile (d : DNSName) (observed : List DNSRecord) : List Call :=
  if d.deletionRequested = false then
    (if d.hasFinalizer = false then [Call.addFinalizer] else []) ++
      match NewDNSRecordFromSpec d.spec with
      | .error _ => []
      | .ok desired => convergeCalls desired observed
  else if d.hasFinalizer then cleanupDNSRecord d.spec.Domain observed
  else []

theorem splitOnChar_ne_nil (sep : Char) (cs : List Char) :
    splitOnChar sep cs ≠ [] := by
  cases cs with
  | nil => simp [splitOnChar]
  | cons c rest =>
    simp only [splitOnChar]
    split <;> simp

theorem splitOnChar_of_not_mem {sep : Char} :
    ∀ {cs : List Char}, sep ∉ cs → splitOnChar sep cs = [cs]
  | [], _ => rfl
  | c :: rest, h => by
    have hc : ¬c = sep := fun hh => h (by simp [hh])
    have hr : sep ∉ rest := fun hh => h (by simp [hh])
    rw [splitOnChar, if_neg hc, splitOnChar_of_not_mem hr]
    rfl

theorem splitOnChar_append {sep : Char} :
    ∀ {a : List Char} (b : List Char), sep ∉ a →
      splitOnChar sep (a ++ sep :: b) = a :: splitOnChar sep b
  | [], b, _ => by simp [splitOnChar]
  | c :: a', b, h => by
    have hc : ¬c = sep := fun hh => h (by simp [hh])
    have ha' : sep ∉ a' := fun hh => h (by simp [hh])
    rw [List.cons_append, splitOnChar, if_neg hc,
      splitOnChar_append b ha']
    rfl

theorem splitOnChar_length_of_mem {sep : Char} :
    ∀ {cs : List Char}, sep ∈ cs → 2 ≤ (splitOnChar sep cs).length
  | c :: rest, h => by
    rw [splitOnChar]
    by_cases hc : c = sep
    · rw [if_pos hc]
      have := splitOnChar_ne_nil sep rest
      have : 1 ≤ (splitOnChar sep rest).length := by
        cases hsp : splitOnChar sep rest with
        | nil => exact absurd hsp this
        | cons x xs => simp
      simp only [List.length_cons]
      omega
    · rw [if_neg hc]
      have hr : sep ∈ rest := by
        rcases List.mem_cons.mp h with h1 | h2
        · exact absurd h1.symm hc
        · exact h2
      have h2 := splitOnChar_length_of_mem hr
      simp only [List.length_cons, List.length_tail]
      omega

theorem two_le_splitOnChar_iff {sep : Char} {cs : List Char} :
    2 ≤ (splitOnChar sep cs).length ↔ sep ∈ cs := by
  constructor
  · intro h
    by_contra hn
    rw [splitOnChar_of_not_mem hn] at h
    simp at h
  · exact splitOnChar_length_of_mem

theorem natDecAux_append :
    ∀ (fuel n : Nat) (acc : List Char),
      natDecAux fuel n acc = natDecAux fuel n [] ++ acc
  | 0, _, _ => rfl
  | fuel + 1, n, acc => by
    rw [natDecAux, natDecAux]
    split
    · rfl
    · rw [natDecAux_append fuel (n / 10) (Nat.digitChar (n % 10) :: acc),
        natDecAux_append fuel (n / 10) [Nat.digitChar (n % 10)]]
      simp

theorem natDecAux_ne_nil (fuel n : Nat) (acc : List Char) :
    natDecAux (fuel + 1) n acc ≠ [] := by
  rw [natDecAux]
  split
  · simp
  · rw [natDecAux_append]
    simp

theorem digitChar_isDigit {d : Nat} (h : d < 10) :
    (Nat.digitChar d).isDigit = true := by
  interval_cases d <;> decide

theorem digitChar_toNat {d : Nat} (h : d < 10) :
    (Nat.digitChar d).toNat - 48 = d := by
  interval_cases d <;> decide

theorem natDecAux_all_isDigit :
    ∀ (fuel n : Nat) (acc : List Char),
      (∀ c ∈ acc, c.isDigit = true) →
      ∀ c ∈ natDecAux fuel n acc, c.isDigit = true
  | 0, _, _, hacc => hacc
  | fuel + 1, n, acc, hacc => by
    rw [natDecAux]
    split
    · intro c hc
      rcases List.mem_cons.mp hc with h1 | h2
      · rw [h1]; exact digitChar_isDigit (Nat.mod_lt n (by omega))
      · exact hacc c h2
    · refine natDecAux_all_isDigit fuel (n / 10) _ ?_
      intro c hc
      rcases List.mem_cons.mp hc with h1 | h2
      · rw [h1]; exact digitChar_isDigit (Nat.mod_lt n (by omega))
      · exact hacc c h2

theorem foldl_natDecAux (n : Nat) :
    ∀ (fuel : Nat), n < fuel → ∀ (a : Nat),
      List.foldl (fun a c => a * 10 + (c.toNat - 48)) a (natDecAux fuel n []) =
        a * 10 ^ (natDecAux fuel n []).length + n := by
  induction n using Nat.strong_induction_on with
  | _ n ih =>
    intro fuel hf a
    match fuel, hf with
    | fuel + 1, hf =>
      by_cases h10 : n < 10
      · rw [natDecAux, if_pos h10]
        simp only [List.foldl_cons, List.foldl_nil, List.length_cons,
          List.length_nil]
        rw [digitChar_toNat (Nat.mod_lt n (by omega))]
        have : n % 10 = n := Nat.mod_eq_of_lt h10
        simp [this]
      · rw [natDecAux, if_neg h10]
        rw [natDecAux_append fuel (n / 10) [Nat.digitChar (n % 10)]]
        rw [List.foldl_append]
        have hdiv : n / 10 < n := Nat.div_lt_self (by omega) (by omega)
        rw [ih (n / 10) hdiv fuel (by omega) a]
        simp only [List.foldl_cons, List.foldl_nil, List.length_append,
          List.length_cons, List.length_nil]
        rw [digitChar_toNat (Nat.mod_lt n (by omega))]
        have hmod := Nat.div_add_mod n 10
        ring_nf
        omega

theorem decDigits_natDecimalChars (n : Nat) :
    decDigitsToNat? (natDecimalChars n) = some n := by
  rw [decDigitsToNat?, natDecimalChars]
  rw [if_neg (natDecAux_ne_nil n n [])]
  rw [if_pos]
  · rw [foldl_natDecAux n (n + 1) (by omega) 0]
    simp
  · exact List.all_eq_true.mpr
      (natDecAux_all_isDigit (n + 1) n [] (by simp))

theorem isDigit_ne_dash {c : Char} (h : c.isDigit = true) : ¬c = '-' := by
  intro hc
  rw [hc] at h
  exact absurd h (by decide)

theorem isDigit_ne_plus {c : Char} (h : c.isDigit = true) : ¬c = '+' := by
  intro hc
  rw [hc] at h
  exact absurd h (by decide)

theorem isDigit_ne_comma {c : Char} (h : c.isDigit = true) : ¬c = ',' := by
  intro hc
  rw [hc] at h
  exact absurd h (by decide)

theorem stripSign_natDecimalChars (n : Nat) :
    stripSign (natDecimalChars n) = (false, natDecimalChars n) := by
  have hdig := natDecAux_all_isDigit (n + 1) n [] (by simp)
  cases hcs : natDecimalChars n with
  | nil => exact absurd hcs (natDecAux_ne_nil n n [])
  | cons c cs =>
    have hc : c.isDigit = true := by
      refine hdig c ?_
      rw [show natDecAux (n + 1) n [] = natDecimalChars n from rfl, hcs]
      simp
    rw [stripSign, if_neg (isDigit_ne_dash hc), if_neg (isDigit_ne_plus hc)]

theorem goParseInt32_goFormatInt (v : Int)
    (h1 : -(2 ^ 31) ≤ v) (h2 : v < 2 ^ 31) :
    goParseInt32 (goFormatInt v) = some v := by
  have hpow : ((2 : Int) ^ 31) = 2147483648 := by norm_num
  rw [hpow] at h1 h2
  rw [goFormatInt]
  by_cases hv : v < 0
  · rw [if_pos hv]
    have hstrip : stripSign (String.mk ('-' :: natDecimalChars v.natAbs)).data =
        (true, natDecimalChars v.natAbs) := by
      rw [show (String.mk ('-' :: natDecimalChars v.natAbs)).data =
        '-' :: natDecimalChars v.natAbs from rfl, stripSign, if_pos rfl]
    simp only [goParseInt32, hstrip, decDigits_natDecimalChars, if_true]
    rw [if_neg]
    · congr 1
      omega
    · rw [hpow]
      omega
  · rw [if_neg hv]
    have hstrip : stripSign (String.mk (natDecimalChars v.toNat)).data =
        (false, natDecimalChars v.toNat) := by
      rw [show (String.mk (natDecimalChars v.toNat)).data =
        natDecimalChars v.toNat from rfl, stripSign_natDecimalChars]
    simp only [goParseInt32, hstrip, decDigits_natDecimalChars,
      Bool.false_eq_true, if_false]
    rw [if_neg]
    · congr 1
      omega
    · rw [hpow]
      omega

theorem comma_not_mem_goFormatInt (n : Int) :
    ',' ∉ (goFormatInt n).data := by
  intro hmem
  rw [goFormatInt] at hmem
  have hdig := fun m => natDecAux_all_isDigit (m + 1) m [] (by simp)
  split at hmem
  · rcases List.mem_cons.mp hmem with h1 | h2
    · exact absurd h1 (by decide)
    · exact isDigit_ne_comma (hdig n.natAbs ',' h2) rfl
  · exact isDigit_ne_comma (hdig n.toNat ',' hmem) rfl

theorem string_data_append (s t : String) :
    (s ++ t).data = s.data ++ t.data := by
  cases s
  cases t
  rfl

theorem parseHostsLine_indexPanic_iff (line : String) :
    parseHostsLine line = .indexPanic ↔ ' ' ∉ line.data := by
  constructor
  · intro h hmem
    have h2 := splitOnChar_length_of_mem hmem
    rcases hsp : splitOnChar ' ' line.data with _ | ⟨x, _ | ⟨y, rest⟩⟩
    · rw [hsp] at h2; simp at h2
    · rw [hsp] at h2; simp at h2
    · rw [parseHostsLine, goSplit, hsp, List.map_cons, List.map_cons] at h
      simp at h
  · intro hnm
    rw [parseHostsLine, goSplit, splitOnChar_of_not_mem hnm]
    rfl

theorem parseCNameLine_indexPanic_iff (fresh : Nat) (line : String) :
    parseCNameLine fresh line = .indexPanic ↔ ',' ∉ line.data := by
  constructor
  · intro h hmem
    have h2 := splitOnChar_length_of_mem hmem
    rcases hsp : splitOnChar ',' line.data with _ | ⟨x, _ | ⟨y, rest⟩⟩
    · rw [hsp] at h2; simp at h2
    · rw [hsp] at h2; simp at h2
    · rw [parseCNameLine, goSplit, hsp, List.map_cons, List.map_cons] at h
      rcases rest with _ | ⟨z, rest'⟩
      · simp at h
      · rcases rest' with _ | ⟨w, rest''⟩
        · rw [List.map_cons, List.map_nil] at h
          rcases hp : goParseInt32 (String.mk z) with _ | v <;>
            simp [hp] at h
        · simp at h
  · intro hnm
    rw [parseCNameLine, goSplit, splitOnChar_of_not_mem hnm]
    rfl

theorem parseHostsLine_encode (ip domain : String)
    (hip : ' ' ∉ ip.data) (hdom : ' ' ∉ domain.data) :
    parseHostsLine (encodeARecordKey ip domain) =
      .ok ⟨domain, ip, v1alpha1.A, none⟩ := by
  have hdata : (encodeARecordKey ip domain).data =
      ip.data ++ ' ' :: domain.data := by
    rw [encodeARecordKey, string_data_append, string_data_append,
      List.append_assoc]
    rfl
  rw [parseHostsLine, goSplit, hdata, splitOnChar_append domain.data hip,
    splitOnChar_of_not_mem hdom, List.map_cons, List.map_cons, List.map_nil]

theorem parseCNameLine_encode_none (fresh : Nat) (domain target : String)
    (hd : ',' ∉ domain.data) (ht : ',' ∉ target.data) :
    parseCNameLine fresh (encodeCNameKey domain target none) =
      .ok ⟨domain, target, v1alpha1.CName, none⟩ := by
  have hdata : (encodeCNameKey domain target none).data =
      domain.data ++ ',' :: target.data := by
    rw [encodeCNameKey, string_data_append, string_data_append,
      List.append_assoc]
    rfl
  rw [parseCNameLine, goSplit, hdata, splitOnChar_append target.data hd,
    splitOnChar_of_not_mem ht, List.map_cons, List.map_cons, List.map_nil]

theorem parseCNameLine_encode_some (fresh : Nat) (domain target : String)
    (p : Ptr32) (hd : ',' ∉ domain.data) (ht : ',' ∉ target.data)
    (hr1 : -(2 ^ 31) ≤ p.val) (hr2 : p.val < 2 ^ 31) :
    parseCNameLine fresh (encodeCNameKey domain target (some p)) =
      .ok ⟨domain, target, v1alpha1.CName, some ⟨fresh, p.val⟩⟩ := by
  have hdata : (encodeCNameKey domain target (some p)).data =
      domain.data ++ ',' ::
        (target.data ++ ',' :: (goFormatInt p.val).data) := by
    rw [encodeCNameKey, string_data_append, string_data_append,
      string_data_append, string_data_append]
    simp
  rw [parseCNameLine, goSplit, hdata, splitOnChar_append _ hd,
    splitOnChar_append _ ht,
    splitOnChar_of_not_mem (comma_not_mem_goFormatInt p.val),
    List.map_cons, List.map_cons, List.map_cons, List.map_nil]
  show (match goParseInt32 (String.mk (goFormatInt p.val).data) with
    | none => LineParse.ttlError
    | some v => .ok ⟨domain, target, v1alpha1.CName, some ⟨fresh, v⟩⟩) = _
  rw [show String.mk (goFormatInt p.val).data = goFormatInt p.val from rfl,
    goParseInt32_goFormatInt p.val hr1 hr2]

theorem cleanupLoop_eq_filter (domain : String) :
    ∀ l : List DNSRecord,
      cleanupLoop domain l =
        (l.filter (fun r => r.Domain == domain)).map Call.delete
  | [] => rfl
  | r :: rest => by
    rw [cleanupLoop]
    by_cases h : r.Domain = domain
    · rw [if_pos h, cleanupLoop_eq_filter domain rest, List.filter_cons,
        if_pos (by simpa using h), List.map_cons]
    · rw [if_neg h, cleanupLoop_eq_filter domain rest, List.filter_cons,
        if_neg (by simpa using h)]

theorem convergeCalls_no_equal (desired : DNSRecord) :
    ∀ l : List DNSRecord,
      (∀ r ∈ l, r.Domain = desired.Domain → r.Equals desired = false) →
      convergeCalls desired l =
        (l.filter (fun r => r.Domain == desired.Domain)).map Call.delete ++
          [Call.create desired]
  | [], _ => rfl
  | r :: rest, h => by
    rw [convergeCalls]
    by_cases hd : r.Domain = desired.Domain
    · rw [if_pos hd]
      simp only [h r (by simp) hd, Bool.false_eq_true, if_false]
      rw [convergeCalls_no_equal desired rest
          (fun q hq => h q (List.mem_cons_of_mem r hq)),
        List.filter_cons, if_pos (by simpa using hd), List.map_cons]
      rfl
    · rw [if_neg hd,
        convergeCalls_no_equal desired rest
          (fun q hq => h q (List.mem_cons_of_mem r hq)),
        List.filter_cons, if_neg (by simpa using hd)]

theorem convergeCalls_first_equal (desired rec0 : DNSRecord)
    (post : List DNSRecord) :
    ∀ pre : List DNSRecord,
      (∀ q ∈ pre, q.Domain = desired.Domain → q.Equals desired = false) →
      rec0.Domain = desired.Domain → rec0.Equals desired = true →
      convergeCalls desired (pre ++ rec0 :: post) =
        (pre.filter (fun q => q.Domain == desired.Domain)).map Call.delete
  | [], _, hd, he => by
    rw [List.nil_append, convergeCalls, if_pos hd]
    simp only [he, if_true]
    rfl
  | q :: pre', h, hd, he => by
    rw [List.cons_append, convergeCalls]
    by_cases hq : q.Domain = desired.Domain
    · rw [if_pos hq]
      simp only [h q (by simp) hq, Bool.false_eq_true, if_false]
      rw [convergeCalls_first_equal desired rec0 post pre'
          (fun x hx => h x (List.mem_cons_of_mem q hx)) hd he,
        List.filter_cons, if_pos (by simpa using hq), List.map_cons]
    · rw [if_neg hq,
        convergeCalls_first_equal desired rec0 post pre'
          (fun x hx => h x (List.mem_cons_of_mem q hx)) hd he,
        List.filter_cons, if_neg (by simpa using hq)]

theorem Reconcile_normal (d : DNSName) (observed : List DNSRecord)
    (desired : DNSRecord) (hdel : d.deletionRequested = false)
    (hok : NewDNSRecordFromSpec d.spec = .ok desired) :
    Reconcile d observed =
      (if d.hasFinalizer = false then [Call.addFinalizer] else []) ++
        convergeCalls desired observed := by
  rw [Reconcile, if_pos hdel, hok]

theorem Reconcile_deletion (d : DNSName) (observed : List DNSRecord)
    (hdel : d.deletionRequested = true) (hfin : d.hasFinalizer = true) :
    Reconcile d observed = cleanupDNSRecord d.spec.Domain observed := by
  rw [Reconcile, if_neg (by simp [hdel]), if_pos hfin]

/-- C1: the claim that `Equals` is true iff all four fields match with TTL
compared by presence and value fails on the code: two records agreeing in
all four fields whose equal TTL values live in two distinct allocations
are equal per the spec's §3 definition (`specEquals`), yet
`DNSRecord.Equals` returns false, because the Go code compares the
`*int32` TTL fields with `!=`, i.e. by pointer identity. -/
theorem C1_equals_ttl_pointer_divergence :
    specEquals ⟨"foobar.de", "homelab", "CNAME", some ⟨0, 500⟩⟩
        ⟨"foobar.de", "homelab", "CNAME", some ⟨1, 500⟩⟩ = true ∧
    DNSRecord.Equals ⟨"foobar.de", "homelab", "CNAME", some ⟨0, 500⟩⟩
        ⟨"foobar.de", "homelab", "CNAME", some ⟨1, 500⟩⟩ = false := by
  exact ⟨by decide, by decide⟩

/-- C2 counterexample: a valid A-kind declared spec that carries a TTL
produces a Record whose TTL is present (copied verbatim from the spec),
not absent as the claim states. -/
theorem C2_counterexample_a_spec_ttl_kept :
    NewDNSRecordFromSpec
        ⟨"A", "foobar4.com", none, some "192.168.178.1", some ⟨0, 500⟩⟩ =
      .ok ⟨"foobar4.com", "192.168.178.1", "A", some ⟨0, 500⟩⟩ ∧
    DNSRecord.TTL ⟨"foobar4.com", "192.168.178.1", "A", some ⟨0, 500⟩⟩ ≠
      none := by
  exact ⟨rfl, by decide⟩

/-- C2 amended: for every valid A-kind declared spec (kind A, address
present), `NewDNSRecordFromSpec` succeeds and returns a Record with kind
A, target the declared address, and the TTL copied unchanged from the
declared spec (absent exactly when the declared spec carries none). -/
theorem C2_from_declared_a_amended (spec : DNSNameSpec) (ip : String)
    (hty : spec.Type' = v1alpha1.A) (hip : spec.TargetIP = some ip) :
    NewDNSRecordFromSpec spec =
      .ok ⟨spec.Domain, ip, v1alpha1.A, spec.TTL⟩ := by
  rw [NewDNSRecordFromSpec, if_pos hty, hip, hty]

theorem C2_from_declared_a_amended_witness :
    NewDNSRecordFromSpec
        ⟨"A", "foobar4.com", none, some "192.168.178.1", none⟩ =
      .ok ⟨"foobar4.com", "192.168.178.1", "A", none⟩ :=
  C2_from_declared_a_amended
    ⟨"A", "foobar4.com", none, some "192.168.178.1", none⟩
    "192.168.178.1" rfl rfl

/-- C3: the idempotence scenario fails on the code. A first pass on an
empty observed set creates the declared CNAME `foobar.de -> homelab` with
ttl 500; the created key parses back with the TTL in a fresh allocation
(address 0 here, while the declared spec's TTL lives at address 100), the
parsed record is spec-equal to the desired one, yet the second pass
deletes and re-creates instead of issuing zero mutating calls, because
`Equals` compares the TTL pointers. -/
theorem C3_second_pass_not_noop :
    Reconcile
        ⟨false, true,
          ⟨"CNAME", "foobar.de", some "homelab", none, some ⟨100, 500⟩⟩⟩
        [] =
      [Call.create ⟨"foobar.de", "homelab", "CNAME", some ⟨100, 500⟩⟩] ∧
    parseCNameLine 0
        (encodeCNameKey "foobar.de" "homelab" (some ⟨100, 500⟩)) =
      .ok ⟨"foobar.de", "homelab", "CNAME", some ⟨0, 500⟩⟩ ∧
    specEquals ⟨"foobar.de", "homelab", "CNAME", some ⟨0, 500⟩⟩
        ⟨"foobar.de", "homelab", "CNAME", some ⟨100, 500⟩⟩ = true ∧
    Reconcile
        ⟨false, true,
          ⟨"CNAME", "foobar.de", some "homelab", none, some ⟨100, 500⟩⟩⟩
        [⟨"foobar.de", "homelab", "CNAME", some ⟨0, 500⟩⟩] =
      [Call.delete ⟨"foobar.de", "homelab", "CNAME", some ⟨0, 500⟩⟩,
       Call.create ⟨"foobar.de", "homelab", "CNAME", some ⟨100, 500⟩⟩] := by
  exact ⟨by decide, by decide, by decide, by decide⟩

/-- C4 counterexample: an A-kind Record carrying a TTL does not
round-trip: the A create key `"<address> <domain>"` never encodes the
TTL, so decoding yields an absent TTL and the result is not spec-equal to
the original. -/
theorem C4_counterexample_a_ttl_lost :
    decodeKey 0 ⟨"foobar4.com", "192.168.178.1", "A", some ⟨0, 500⟩⟩ =
      .ok ⟨"foobar4.com", "192.168.178.1", "A", none⟩ ∧
    specEquals ⟨"foobar4.com", "192.168.178.1", "A", none⟩
        ⟨"foobar4.com", "192.168.178.1", "A", some ⟨0, 500⟩⟩ = false := by
  exact ⟨by decide, by decide⟩

/-- C4 amended: encoding a Record into its create-call key and decoding it
with the list parser of the same kind yields a spec-equal Record, for an
A-kind Record whose TTL is absent (the A key never encodes a TTL) and
whose fields are free of the space delimiter, and for a CNAME-kind Record
whose fields are free of the comma delimiter and whose TTL value, when
present, lies in the signed 32-bit range (as every Go `int32` does). -/
theorem C4_roundtrip_amended (r : DNSRecord) (fresh : Nat) :
    (r.Type' = v1alpha1.A → r.TTL = none → ' ' ∉ r.Domain.data →
      ' ' ∉ r.Target.data →
      decodeKey fresh r = .ok r ∧ specEquals r r = true) ∧
    (r.Type' = v1alpha1.CName → ',' ∉ r.Domain.data → ',' ∉ r.Target.data →
      (∀ p, r.TTL = some p → -(2 ^ 31) ≤ p.val ∧ p.val < 2 ^ 31) →
      decodeKey fresh r =
          .ok ⟨r.Domain, r.Target, v1alpha1.CName,
            r.TTL.map fun p => ⟨fresh, p.val⟩⟩ ∧
        specEquals
            ⟨r.Domain, r.Target, v1alpha1.CName,
              r.TTL.map fun p => ⟨fresh, p.val⟩⟩ r = true) := by
  obtain ⟨dom, tgt, ty, ttl⟩ := r
  constructor
  · intro hty httl hdom htgt
    simp only at hty httl hdom htgt
    subst hty httl
    rw [decodeKey, if_pos rfl, createKey, if_pos rfl,
      parseHostsLine_encode tgt dom htgt hdom]
    exact ⟨rfl, by simp [specEquals, specTTLEq]⟩
  · intro hty hdom htgt hrange
    simp only at hty hdom htgt hrange
    subst hty
    have hnA : ¬(v1alpha1.CName = v1alpha1.A) := by decide
    rw [decodeKey, if_neg hnA, createKey, if_neg hnA]
    cases ttl with
    | none =>
      rw [parseCNameLine_encode_none fresh dom tgt hdom htgt]
      exact ⟨rfl, by simp [specEquals, specTTLEq]⟩
    | some p =>
      obtain ⟨hr1, hr2⟩ := hrange p rfl
      rw [parseCNameLine_encode_some fresh dom tgt p hdom htgt hr1 hr2]
      exact ⟨rfl, by simp [specEquals, specTTLEq]⟩

theorem C4_roundtrip_amended_witness :
    decodeKey 7 ⟨"foobar.de", "homelab", "CNAME", some ⟨3, 500⟩⟩ =
      .ok ⟨"foobar.de", "homelab", "CNAME", some ⟨7, 500⟩⟩ ∧
    specEquals ⟨"foobar.de", "homelab", "CNAME", some ⟨7, 500⟩⟩
        ⟨"foobar.de", "homelab", "CNAME", some ⟨3, 500⟩⟩ = true :=
  (C4_roundtrip_amended ⟨"foobar.de", "homelab", "CNAME", some ⟨3, 500⟩⟩ 7).2
    rfl (by decide) (by decide)
    (by intro p hp; cases hp; exact ⟨by decide, by decide⟩)

/-- C5: in a pass with no deletion requested, when some observed records
match the declared domain and none of them `Equals` the desired record,
the pass deletes every matching record (one delete each, in list order)
and afterwards issues exactly one create of the desired record; every
delete precedes the create and the pass issues no other backend
mutation (the model has no partial-update call at all). -/
theorem C5_drift_all_deletes_then_one_create (d : DNSName)
    (observed : List DNSRecord) (desired : DNSRecord)
    (hdel : d.deletionRequested = false)
    (hok : NewDNSRecordFromSpec d.spec = .ok desired)
    (_hmatch : ∃ r ∈ observed, r.Domain = desired.Domain)
    (hne : ∀ r ∈ observed, r.Domain = desired.Domain →
      r.Equals desired = false) :
    Reconcile d observed =
      (if d.hasFinalizer = false then [Call.addFinalizer] else []) ++
        ((observed.filter (fun r => r.Domain == desired.Domain)).map
            Call.delete ++
          [Call.create desired]) := by
  rw [Reconcile_normal d observed desired hdel hok,
    convergeCalls_no_equal desired observed hne]

theorem C5_drift_all_deletes_then_one_create_witness :
    Reconcile ⟨false, true, ⟨"CNAME", "foobar.de", some "homelab", none, none⟩⟩
        [⟨"foobar.de", "homelab", "CNAME", some ⟨0, 500⟩⟩] =
      [Call.delete ⟨"foobar.de", "homelab", "CNAME", some ⟨0, 500⟩⟩,
       Call.create ⟨"foobar.de", "homelab", "CNAME", none⟩] := by
  have h := C5_drift_all_deletes_then_one_create
    ⟨false, true, ⟨"CNAME", "foobar.de", some "homelab", none, none⟩⟩
    [⟨"foobar.de", "homelab", "CNAME", some ⟨0, 500⟩⟩]
    ⟨"foobar.de", "homelab", "CNAME", none⟩ rfl rfl
    ⟨⟨"foobar.de", "homelab", "CNAME", some ⟨0, 500⟩⟩, by decide, rfl⟩
    (by
      intro r hr hdomr
      rw [List.mem_singleton] at hr
      subst hr
      decide)
  simpa using h

/-- C6: when deletion is requested and the finalizer is present, the pass
deletes every observed record whose domain equals the declared domain (in
list order), then removes the finalizer, and issues no create call. -/
theorem C6_deletion_cleanup (d : DNSName) (observed : List DNSRecord)
    (hdel : d.deletionRequested = true) (hfin : d.hasFinalizer = true) :
    Reconcile d observed =
      (observed.filter (fun r => r.Domain == d.spec.Domain)).map
          Call.delete ++
        [Call.removeFinalizer] ∧
    ∀ r, Call.create r ∉ Reconcile d observed := by
  have heq : Reconcile d observed =
      (observed.filter (fun r => r.Domain == d.spec.Domain)).map
          Call.delete ++
        [Call.removeFinalizer] := by
    rw [Reconcile_deletion d observed hdel hfin, cleanupDNSRecord,
      cleanupLoop_eq_filter]
  refine ⟨heq, fun r hr => ?_⟩
  rw [heq] at hr
  rcases List.mem_append.mp hr with h1 | h2
  · rcases List.mem_map.mp h1 with ⟨q, _, hq⟩
    simp at hq
  · simp at h2

theorem C6_deletion_cleanup_witness :
    Reconcile ⟨true, true, ⟨"CNAME", "foobar.de", some "homelab", none, none⟩⟩
        [⟨"foobar.de", "homelab", "CNAME", some ⟨0, 500⟩⟩,
         ⟨"other.de", "x", "CNAME", none⟩,
         ⟨"foobar.de", "old", "A", none⟩] =
      [Call.delete ⟨"foobar.de", "homelab", "CNAME", some ⟨0, 500⟩⟩,
       Call.delete ⟨"foobar.de", "old", "A", none⟩,
       Call.removeFinalizer] := by
  have h := C6_deletion_cleanup
    ⟨true, true, ⟨"CNAME", "foobar.de", some "homelab", none, none⟩⟩
    [⟨"foobar.de", "homelab", "CNAME", some ⟨0, 500⟩⟩,
     ⟨"other.de", "x", "CNAME", none⟩,
     ⟨"foobar.de", "old", "A", none⟩] rfl rfl
  simpa using h.1

/-- C7: `NewDNSRecordFromSpec` fails exactly when the kind is A with the
address absent, the kind is CNAME with the target absent, or the kind is
neither A nor CNAME; in every other case it succeeds with a Record. -/
theorem C7_from_spec_error_characterisation (spec : DNSNameSpec) :
    ((∃ e, NewDNSRecordFromSpec spec = .error e) ↔
      ((spec.Type' = v1alpha1.A ∧ spec.TargetIP = none) ∨
        (spec.Type' = v1alpha1.CName ∧ spec.Target = none) ∨
        (spec.Type' ≠ v1alpha1.A ∧ spec.Type' ≠ v1alpha1.CName))) ∧
    ((∃ r, NewDNSRecordFromSpec spec = .ok r) ↔
      ¬((spec.Type' = v1alpha1.A ∧ spec.TargetIP = none) ∨
        (spec.Type' = v1alpha1.CName ∧ spec.Target = none) ∨
        (spec.Type' ≠ v1alpha1.A ∧ spec.Type' ≠ v1alpha1.CName))) := by
  have hAC : v1alpha1.A ≠ v1alpha1.CName := by decide
  have hCA : v1alpha1.CName ≠ v1alpha1.A := by decide
  rw [NewDNSRecordFromSpec]
  by_cases hA : spec.Type' = v1alpha1.A
  · rw [if_pos hA]
    cases hip : spec.TargetIP with
    | none => simp [hA, hAC]
    | some ip => simp [hA, hAC]
  · rw [if_neg hA]
    by_cases hC : spec.Type' = v1alpha1.CName
    · rw [if_pos hC]
      cases ht : spec.Target with
      | none => simp [hA, hC, hCA]
      | some t => simp [hA, hC, hCA]
    · rw [if_neg hC]
      simp [hA, hC]

/-- C8: starting from an empty session, `authenticate` fails and leaves
the stored sid empty on a non-success status, on a body that fails to
decode, and on a body reporting `valid = false`; only a fully successful
response stores the returned session id; and `doAuthenticatedRequest`
invokes `authenticate` exactly when no session id is held. -/
theorem C8_authenticate_lazy_session (resp : AuthHTTPResponse) :
    (resp.status ≠ 200 → authenticate "" resp = ("", false)) ∧
    (resp.body = none → authenticate "" resp = ("", false)) ∧
    (∀ s, resp.body = some s → s.valid = false →
      authenticate "" resp = ("", false)) ∧
    (∀ s, resp.status = 200 → resp.body = some s → s.valid = true →
      authenticate "" resp = (s.sid, true)) ∧
    (∀ sid, (doAuthenticatedRequest sid resp).1 = true ↔ sid = "") := by
  refine ⟨?_, ?_, ?_, ?_, ?_⟩
  · intro h
    rw [authenticate, if_pos h]
  · intro h
    rw [authenticate, h]
    split
    · rfl
    · rfl
  · intro s hs hval
    rw [authenticate, hs]
    split
    · rfl
    · show (if s.valid = false then ("", false) else (s.sid, true)) =
        ("", false)
      rw [if_pos hval]
  · intro s hst hs hval
    rw [authenticate, hs, if_neg (by rw [hst]; exact fun hh => hh rfl)]
    show (if s.valid = false then ("", false) else (s.sid, true)) =
      (s.sid, true)
    rw [if_neg (by rw [hval]; exact fun hh => Bool.noConfusion hh)]
  · intro sid
    rw [doAuthenticatedRequest]
    by_cases hsid : sid = ""
    · rw [if_pos hsid]
      simp [hsid]
    · rw [if_neg hsid]
      simp [hsid]

theorem C8_authenticate_lazy_session_witness :
    authenticate "" ⟨401, none⟩ = ("", false) ∧
    authenticate "" ⟨200, some ⟨true, "token"⟩⟩ = ("token", true) :=
  ⟨(C8_authenticate_lazy_session ⟨401, none⟩).1 (by decide),
   (C8_authenticate_lazy_session ⟨200, some ⟨true, "token"⟩⟩).2.2.2.1
     ⟨true, "token"⟩ rfl rfl rfl⟩

/-- C9: the list parsers are not total over backend lines: a hosts line
parses without an out-of-range access on its second segment exactly when
it contains a space, and a cnameRecords line exactly when it contains a
comma; a line without the separator hits the out-of-range access
(`indexPanic`) instead of returning a decode error. -/
theorem C9_parsers_need_separator (line : String) (fresh : Nat) :
    (parseHostsLine line = .indexPanic ↔ ' ' ∉ line.data) ∧
    (parseCNameLine fresh line = .indexPanic ↔ ',' ∉ line.data) :=
  ⟨parseHostsLine_indexPanic_iff line, parseCNameLine_indexPanic_iff fresh line⟩

/-- C10: when the observed set is `pre ++ rec0 :: post` with `rec0` the
first domain-matching record that `Equals` the desired record (every
domain-matching record in `pre` differs), the pass returns at `rec0`: it
has deleted exactly the differing domain-matching records of `pre`, it
issues no create, and nothing after `rec0` contributes a call. -/
theorem C10_first_equal_match_stops (d : DNSName) (desired rec0 : DNSRecord)
    (pre post : List DNSRecord) (hdel : d.deletionRequested = false)
    (hok : NewDNSRecordFromSpec d.spec = .ok desired)
    (hdom : rec0.Domain = desired.Domain)
    (heq : rec0.Equals desired = true)
    (hpre : ∀ q ∈ pre, q.Domain = desired.Domain →
      q.Equals desired = false)
    (_hsev : 2 ≤ ((pre ++ rec0 :: post).filter
      (fun q => q.Domain == desired.Domain)).length) :
    Reconcile d (pre ++ rec0 :: post) =
      (if d.hasFinalizer = false then [Call.addFinalizer] else []) ++
        (pre.filter (fun q => q.Domain == desired.Domain)).map
          Call.delete ∧
    ∀ x, Call.create x ∉ Reconcile d (pre ++ rec0 :: post) := by
  have heqn : Reconcile d (pre ++ rec0 :: post) =
      (if d.hasFinalizer = false then [Call.addFinalizer] else []) ++
        (pre.filter (fun q => q.Domain == desired.Domain)).map
          Call.delete := by
    rw [Reconcile_normal d _ desired hdel hok,
      convergeCalls_first_equal desired rec0 post pre hpre hdom heq]
  refine ⟨heqn, fun x hx => ?_⟩
  rw [heqn] at hx
  rcases List.mem_append.mp hx with h1 | h2
  · split at h1 <;> simp at h1
  · rcases List.mem_map.mp h2 with ⟨q, _, hq⟩
    simp at hq

theorem C10_first_equal_match_stops_witness :
    Reconcile ⟨false, true, ⟨"CNAME", "foobar.de", some "homelab", none, none⟩⟩
        [⟨"foobar.de", "old", "CNAME", none⟩,
         ⟨"foobar.de", "homelab", "CNAME", none⟩,
         ⟨"foobar.de", "later", "CNAME", none⟩] =
      [Call.delete ⟨"foobar.de", "old", "CNAME", none⟩] := by
  have h := C10_first_equal_match_stops
    ⟨false, true, ⟨"CNAME", "foobar.de", some "homelab", none, none⟩⟩
    ⟨"foobar.de", "homelab", "CNAME", none⟩
    ⟨"foobar.de", "homelab", "CNAME", none⟩
    [⟨"foobar.de", "old", "CNAME", none⟩]
    [⟨"foobar.de", "later", "CNAME", none⟩]
    rfl rfl rfl (by decide)
    (by
      intro q hq hdomq
      rw [List.mem_singleton] at hq
      subst hq
      decide)
    (by decide)
  simpa using h.1

example : goSplit ',' "foobar.de,homelab,500" = ["foobar.de", "homelab", "500"] := by decide
example : goSplit ' ' "192.168.178.1 foobar4.com" = ["192.168.178.1", "foobar4.com"] := by decide
example : goFormatInt 500 = "500" := by decide
example : goParseInt32 "500" = some 500 := by decide
example : goParseInt32 "-7" = some (-7) := by decide
example : goParseInt32 "" = none := by decide
example : parseCNameLine 0 "foobar.de,homelab,500" =
    .ok ⟨"foobar.de", "homelab", "CNAME", some ⟨0, 500⟩⟩ := by decide
example : parseHostsLine "192.168.178.1foobar4.com" = .indexPanic := by decide
example : DNSRecord.Equals ⟨"a", "b", "CNAME", some ⟨0, 5⟩⟩ ⟨"a", "b", "CNAME", some ⟨1, 5⟩⟩ = false := by decide
example : specEquals ⟨"a", "b", "CNAME", some ⟨0, 5⟩⟩ ⟨"a", "b", "CNAME", some ⟨1, 5⟩⟩ = true := by decide
